import Mathlib

/-!
# Store-backed service discovery (`etcdiscov`) and static discovery (`confdiscov`)

A shallow embedding of `discovery/etcdiscov/etcd.go` and
`discovery/confdiscov/discovery.go`.

* Go strings are Lean `String`s; `fmt.Sprintf` with `%s` verbs is string
  concatenation.
* A Go slice is an `Option (List α)`: `none` is the `nil` slice, `some []` the
  empty slice made by `make([]T, 0)`.
* Pointers to a `discovery.Node` are passed and returned explicitly.
* The coordination store (the etcd client) is an external collaborator; it is
  modelled by `Store`, an in-memory key/lease table with a script of injected
  call failures and a trace of the calls it received.
* The log sink is not modelled: logging has no effect on any result below.
-/

namespace discovery

/-- Modelled from the spec: `discovery.Type` of the imported package
`github.com/ringbrew/gsv/discovery`, the node kind; `%s` renders it as its
string. -/
abbrev NodeType := String

/-- A value held in a `sync.Map` (`any`): the lease id stored by `Register`
and `KeepAlive` (`clientv3.LeaseID`, an `int64`), or a value of another
dynamic type. -/
inductive Any where
  | LeaseID (id : Int)
  | other (s : String)
  deriving DecidableEq, Repr

/-- A `sync.Map` with string keys: association list, first match wins. -/
abbrev SyncMap := List (String × Any)

/-- `m.Load(key)`. -/
def SyncMap.Load (m : SyncMap) (key : String) : Option Any :=
  (m.find? (fun kv => kv.1 == key)).map (fun kv => kv.2)

/-- `m.Store(key, value)`: sets the value of `key`, replacing an earlier one. -/
def SyncMap.Store (m : SyncMap) (key : String) (value : Any) : SyncMap :=
  (key, value) :: m.filter (fun kv => !(kv.1 == key))

/-- Modelled from the spec: `discovery.Node` of the imported package
`github.com/ringbrew/gsv/discovery` (spec section 3): identifier, service
name, kind, optional tag and the `Extra` side table. -/
structure Node where
  Id : String
  Name : String
  Type_ : NodeType
  Tag : String
  Extra : SyncMap
  deriving DecidableEq, Repr

/-- The `Event` field of a `NodeEvent`. -/
inductive NodeEventType where
  | NodeEventAdd
  | NodeEventRemove
  deriving DecidableEq, Repr

/-- Modelled from the spec: `discovery.NodeEvent`, a change notification
carrying the affected nodes. -/
structure NodeEvent where
  Event : NodeEventType
  Node : List Node
  deriving DecidableEq, Repr

end discovery

namespace etcdiscov

open discovery

/-- Go `error` values, identified by their message. -/
abbrev Error := String

deriving instance DecidableEq for Except

/-- The `Option` struct read from configuration (`Endpoint` only feeds the
client constructor). -/
structure Option_ where
  Endpoint : List String
  Prefix : String
  KeepAliveInterval : Int
  deriving DecidableEq, Repr

/-- The receiver `EtcdDiscovery`: the namespace prefix and the keep-alive
interval (the client is the `Store` threaded through the operations, the
`nodeCancel` table lives in `World`). -/
structure EtcdDiscovery where
  pfx : String
  keepAliveInterval : Int
  deriving DecidableEq, Repr

/-- `const leaseIdKey`. -/
def leaseIdKey : String := "etcd_lease_id"

/-- `NewEtcdDiscovery(opt)`; `clientErr` is the error returned by
`clientv3.New`, if any. -/
def NewEtcdDiscovery (clientErr : Option Error) (opt : Option_) :
    Except Error EtcdDiscovery :=
  match clientErr with
  | some err => .error err
  | none =>
    let pfx := if opt.Prefix != "" then opt.Prefix else "gsv"
    let keepAliveInterval :=
      if opt.KeepAliveInterval != 0 then opt.KeepAliveInterval else 30
    .ok { pfx := pfx, keepAliveInterval := keepAliveInterval }

/-- `e.nodePath(name, nodeType, tag...)`; `tag` is the variadic argument. -/
def EtcdDiscovery.nodePath (e : EtcdDiscovery) (name : String)
    (nodeType : NodeType) (tag : List String) : String :=
  match tag with
  | t :: _ =>
    if t != "" then
      "/" ++ e.pfx ++ "/" ++ name ++ "/" ++ t ++ "/" ++ nodeType
    else
      "/" ++ e.pfx ++ "/" ++ name ++ "/" ++ nodeType
  | [] => "/" ++ e.pfx ++ "/" ++ name ++ "/" ++ nodeType

/-- `e.nodeKey(node)`. -/
def EtcdDiscovery.nodeKey (e : EtcdDiscovery) (node : discovery.Node) : String :=
  if node.Tag != "" then
    "/" ++ e.pfx ++ "/" ++ node.Name ++ "/" ++ node.Tag ++ "/" ++ node.Type_
      ++ "/" ++ node.Id
  else
    "/" ++ e.pfx ++ "/" ++ node.Name ++ "/" ++ node.Type_ ++ "/" ++ node.Id

/-- String prefix test, `strings.HasPrefix(s, p)`: the match made by a
`WithPrefix` range of the Store. -/
def hasPrefix (s p : String) : Bool :=
  p.data.isPrefixOf s.data

/-! ## The Store -/

/-- `mvccpb.KeyValue`: a record of the Store and the lease it is bound to. -/
structure KeyValue where
  Key : String
  Value : String
  Lease : Int
  deriving DecidableEq, Repr

/-- A call received by the Store. -/
inductive Call where
  | Get (key : String)
  | Grant (ttl : Int)
  | Put (key : String) (val : String) (lease : Int)
  | KeepAliveOnce (id : Int)
  | Revoke (id : Int)
  deriving DecidableEq, Repr

/-- Modelled from the spec: the Store of spec section 6 (the etcd client, an
external collaborator): records bound to leases, the live leases with their
TTL, the next lease id to hand out, a script of injected failures (one entry
is consumed by each call; `true` makes the call fail, an exhausted script
injects nothing) and the trace of calls received. -/
structure Store where
  kvs : List KeyValue
  leases : List (Int × Int)
  nextLease : Int
  faults : List Bool
  calls : List Call
  deriving DecidableEq, Repr

/-- The error of an injected failure (time-out, unreachable Store). -/
def ErrUnavailable : Error := "etcdserver: request timed out"

/-- The Store's answer for a lease that is not live. -/
def ErrLeaseNotFound : Error := "etcdserver: requested lease not found"

/-- The error of a call made on a cancelled context. -/
def ErrCanceled : Error := "context canceled"

/-- Records the call and reads the next entry of the failure script. -/
def Store.enter (s : Store) (c : Call) : Bool × Store :=
  match s.faults with
  | [] => (false, { s with calls := s.calls ++ [c] })
  | f :: fs => (f, { s with faults := fs, calls := s.calls ++ [c] })

/-- Whether lease `id` is live. -/
def Store.hasLease (s : Store) (id : Int) : Bool :=
  s.leases.any (fun l => l.1 == id)

/-- `Grant(ttl) -> leaseId`. -/
def Store.Grant (s : Store) (ttl : Int) : Except Error Int × Store :=
  match s.enter (.Grant ttl) with
  | (true, s) => (.error ErrUnavailable, s)
  | (false, s) =>
    (.ok s.nextLease,
     { s with leases := (s.nextLease, ttl) :: s.leases, nextLease := s.nextLease + 1 })

/-- `Put(key, value, withLease(leaseId))`: last writer wins. -/
def Store.Put (s : Store) (key val : String) (lease : Int) : Except Error Unit × Store :=
  match s.enter (.Put key val lease) with
  | (true, s) => (.error ErrUnavailable, s)
  | (false, s) =>
    if s.hasLease lease then
      (.ok (),
       { s with kvs := s.kvs.filter (fun kv => !(kv.Key == key))
                        ++ [{ Key := key, Value := val, Lease := lease }] })
    else (.error ErrLeaseNotFound, s)

/-- `KeepAliveOnce(ctx, leaseId)`; `cancelled` tells whether `ctx` has been
cancelled, in which case the client fails without reaching the Store. The
renewed lease keeps its id. -/
def Store.KeepAliveOnce (s : Store) (cancelled : Bool) (id : Int) : Except Error Int × Store :=
  if cancelled then (.error ErrCanceled, s)
  else
    match s.enter (.KeepAliveOnce id) with
    | (true, s) => (.error ErrUnavailable, s)
    | (false, s) =>
      if s.hasLease id then (.ok id, s) else (.error ErrLeaseNotFound, s)

/-- `Revoke(leaseId)`: drops the lease and every record bound to it; a lease
that is not live is rejected. -/
def Store.Revoke (s : Store) (id : Int) : Except Error Unit × Store :=
  match s.enter (.Revoke id) with
  | (true, s) => (.error ErrUnavailable, s)
  | (false, s) =>
    if s.hasLease id then
      (.ok (),
       { s with leases := s.leases.filter (fun l => !(l.1 == id)),
                kvs := s.kvs.filter (fun kv => !(kv.Lease == id)) })
    else (.error ErrLeaseNotFound, s)

/-- Prefix `Get(key, WithPrefix())`: the records whose key starts with `key`. -/
def Store.Get (s : Store) (key : String) : Except Error (List KeyValue) × Store :=
  match s.enter (.Get key) with
  | (true, s) => (.error ErrUnavailable, s)
  | (false, s) => (.ok (s.kvs.filter (fun kv => hasPrefix kv.Key key)), s)

/-- `mvccpb.Event_EventType`. -/
inductive EventType where
  | PUT
  | DELETE
  deriving DecidableEq, Repr

/-- `clientv3.Event`: `Kv` is always populated by the Store; `PrevKv` is a
pointer that the Store leaves `nil` when it has no previous record to report
(none existed, or it has been compacted). -/
structure Event where
  Type_ : EventType
  Kv : KeyValue
  PrevKv : Option KeyValue
  deriving DecidableEq, Repr

/-- `clientv3.WatchResponse`. -/
structure WatchResponse where
  Events : List Event
  deriving DecidableEq, Repr

/-! ## Process state -/

/-- The state shared by the operations of one `EtcdDiscovery`: the Store
behind `e.client`, the `nodeCancel` table (node id to the context whose cancel
function is stored), the contexts cancelled so far and the next fresh context. -/
structure World where
  store : Store
  nodeCancel : List (String × Nat)
  cancelled : List Nat
  nextCtx : Nat
  deriving DecidableEq, Repr

/-- `e.nodeCancel.Load(id)`. -/
def World.loadCancel (w : World) (id : String) : Option Nat :=
  (w.nodeCancel.find? (fun kv => kv.1 == id)).map (fun kv => kv.2)

/-- `e.nodeCancel.Store(id, cancel)`. -/
def World.storeCancel (w : World) (id : String) (ctx : Nat) : World :=
  { w with nodeCancel := (id, ctx) :: w.nodeCancel.filter (fun kv => !(kv.1 == id)) }

/-- The `encoding/json` functions used: `json.Marshal(node)` and
`json.NewDecoder(bytes.NewReader(v)).Decode(&node)` (`none` when decoding
returns an error). -/
structure Json where
  Marshal : discovery.Node → Except Error String
  Decode : String → Option discovery.Node

/-! ## Operations of `EtcdDiscovery` -/

/-- `e.encodeNode(node)`: the marshalling error is dropped. -/
def EtcdDiscovery.encodeNode (_e : EtcdDiscovery) (j : Json) (node : discovery.Node) : String :=
  match j.Marshal node with
  | .ok val => val
  | .error _ => ""

/-- The loop of `Node` over `resp.Kvs`, `result` being the slice built so far. -/
def EtcdDiscovery.Node.loop (j : Json) : List KeyValue → List discovery.Node → List discovery.Node
  | [], result => result
  | event :: rest, result =>
    match j.Decode event.Value with
    | none => EtcdDiscovery.Node.loop j rest result
    | some node => EtcdDiscovery.Node.loop j rest (result ++ [node])

/-- `e.Node(name, nodeType, tag...)`: the slice and the error returned. -/
def EtcdDiscovery.Node (e : EtcdDiscovery) (j : Json) (name : String)
    (nodeType : NodeType) (tag : List String) (w : World) :
    (Option (List discovery.Node) × Option Error) × World :=
  match w.store.Get (e.nodePath name nodeType tag) with
  | (.error err, st) => ((none, some err), { w with store := st })
  | (.ok kvs, st) =>
    ((some (EtcdDiscovery.Node.loop j kvs []), none), { w with store := st })

/-- The inner loop of the `Watch` goroutine over `watchResp.Events`; `out` is
what has been sent on `result` so far. The flag is `true` when the goroutine
panicked (dereferencing a `nil` `PrevKv`). -/
def EtcdDiscovery.Watch.events (j : Json) : List Event → List NodeEvent → List NodeEvent × Bool
  | [], out => (out, false)
  | event :: rest, out =>
    match event.Type_ with
    | .PUT =>
      match j.Decode event.Kv.Value with
      | none => EtcdDiscovery.Watch.events j rest out
      | some node =>
        EtcdDiscovery.Watch.events j rest
          (out ++ [{ Event := .NodeEventAdd, Node := [node] }])
    | .DELETE =>
      match event.PrevKv with
      | none => (out, true)
      | some prev =>
        match j.Decode prev.Value with
        | none => EtcdDiscovery.Watch.events j rest out
        | some node =>
          EtcdDiscovery.Watch.events j rest
            (out ++ [{ Event := .NodeEventRemove, Node := [node] }])

/-- The outer loop of the `Watch` goroutine over `watchChan`; a panic is
recovered by the deferred function and ends the goroutine. -/
def EtcdDiscovery.Watch.dispatch (j : Json) : List WatchResponse → List NodeEvent → List NodeEvent
  | [], out => out
  | watchResp :: rest, out =>
    match EtcdDiscovery.Watch.events j watchResp.Events out with
    | (out, true) => out
    | (out, false) => EtcdDiscovery.Watch.dispatch j rest out

/-- `e.Watch(name, nodeType, tag...)`: `watcher` gives the responses the Store
delivers on the watch channel opened for a key prefix; the result is the
sequence of events sent on the returned channel, and the (nil) error. -/
def EtcdDiscovery.Watch (e : EtcdDiscovery) (j : Json) (name : String)
    (nodeType : NodeType) (tag : List String)
    (watcher : String → List WatchResponse) : List NodeEvent × Option Error :=
  (EtcdDiscovery.Watch.dispatch j (watcher (e.nodePath name nodeType tag)) [], none)

/-- `e.Register(node)`: the error returned, the node and the state afterwards. -/
def EtcdDiscovery.Register (e : EtcdDiscovery) (j : Json) (node : discovery.Node) (w : World) :
    Option Error × discovery.Node × World :=
  match w.store.Grant e.keepAliveInterval with
  | (.error err, st) => (some err, node, { w with store := st })
  | (.ok leaseID, st) =>
    let node := { node with Extra := node.Extra.Store leaseIdKey (.LeaseID leaseID) }
    let nodePath := e.nodeKey node
    match st.Put nodePath (e.encodeNode j node) leaseID with
    | (.error err, st) => (some err, node, { w with store := st })
    | (.ok _, st) => (none, node, { w with store := st })

/-- Wrap-around of `int64` arithmetic. -/
def wrap64 (x : Int) : Int :=
  (x + 9223372036854775808) % 18446744073709551616 - 9223372036854775808

/-- The ticker period `(time.Duration(e.keepAliveInterval) * time.Second) / 3`,
in nanoseconds. -/
def EtcdDiscovery.tickerPeriod (e : EtcdDiscovery) : Int :=
  (wrap64 (e.keepAliveInterval * 1000000000)).tdiv 3

/-- What one iteration of the `KeepAlive` loop does next. -/
inductive Step where
  | next
  | ret (err : Error)
  deriving DecidableEq, Repr

/-- The body of the `KeepAlive` loop, run for one tick of the ticker; `ctx` is
the context created on entry. -/
def EtcdDiscovery.KeepAlive.tick (e : EtcdDiscovery) (j : Json) (ctx : Nat)
    (node : discovery.Node) (w : World) : Step × discovery.Node × World :=
  match node.Extra.Load leaseIdKey with
  | none => (.ret "lease id not found", node, w)
  | some (.other s) => (.ret ("invalid lease id: " ++ s), node, w)
  | some (.LeaseID leaseId) =>
    match w.store.KeepAliveOnce (w.cancelled.contains ctx) leaseId with
    | (.error _, st) =>
      match e.Register j node { w with store := st } with
      | (_, node, w) => (.next, node, w)
    | (.ok respID, st) =>
      (.next, { node with Extra := node.Extra.Store leaseIdKey (.LeaseID respID) },
       { w with store := st })

/-- How a run of `KeepAlive` stands: still in its loop, returned (with an
error or `nil`), or panicked. -/
inductive Outcome where
  | running
  | returned (err : Option Error)
  | panicked
  deriving DecidableEq, Repr

/-- The `for range ticker.C` loop over the next `ticks` ticks. The channel of
a ticker is never closed, so the loop ends only by a `return` of its body. -/
def EtcdDiscovery.KeepAlive.loop (e : EtcdDiscovery) (j : Json) (ctx : Nat) :
    Nat → discovery.Node → World → Outcome × discovery.Node × World
  | 0, node, w => (.running, node, w)
  | ticks + 1, node, w =>
    match EtcdDiscovery.KeepAlive.tick e j ctx node w with
    | (.ret err, node, w) => (.returned (some err), node, w)
    | (.next, node, w) => EtcdDiscovery.KeepAlive.loop e j ctx ticks node w

/-- The entry of `KeepAlive(node)`: a fresh cancellable context whose cancel
function is stored under `node.Id`. -/
def EtcdDiscovery.KeepAlive.enter (node : discovery.Node) (w : World) : Nat × World :=
  (w.nextCtx, { w.storeCancel node.Id w.nextCtx with nextCtx := w.nextCtx + 1 })

/-- `e.KeepAlive(node)` observed while the ticker delivers `ticks` ticks;
`time.NewTicker` panics on a non-positive period. -/
def EtcdDiscovery.KeepAlive (e : EtcdDiscovery) (j : Json) (node : discovery.Node) (w : World)
    (ticks : Nat) : Outcome × discovery.Node × World :=
  match EtcdDiscovery.KeepAlive.enter node w with
  | (ctx, w) =>
    if e.tickerPeriod ≤ 0 then (.panicked, node, w)
    else EtcdDiscovery.KeepAlive.loop e j ctx ticks node w

/-- `e.Deregister(node)`: the error returned and the state afterwards. -/
def EtcdDiscovery.Deregister (_e : EtcdDiscovery) (node : discovery.Node) (w : World) :
    Option Error × World :=
  let w :=
    match w.loadCancel node.Id with
    | some c => { w with cancelled := c :: w.cancelled }
    | none => w
  match node.Extra.Load leaseIdKey with
  | some (.LeaseID leaseId) =>
    match w.store.Revoke leaseId with
    | (.error err, st) => (some err, { w with store := st })
    | (.ok _, st) => (none, { w with store := st })
  | _ => (none, w)

/-! ## The translation of change notifications, in the spec's words -/

/-- The event a single change notification stands for (spec section 4.5): a
put yields `Add` with the node decoded from the new value, a delete yields
`Remove` with the node decoded from the previous value, and a change whose
value is missing or does not decode yields nothing. -/
def translate (j : Json) (event : Event) : Option NodeEvent :=
  match event.Type_ with
  | .PUT => (j.Decode event.Kv.Value).map (fun node => { Event := .NodeEventAdd, Node := [node] })
  | .DELETE =>
    match event.PrevKv with
    | none => none
    | some prev =>
      (j.Decode prev.Value).map (fun node => { Event := .NodeEventRemove, Node := [node] })

/-- Whether a notification carries the value its translation reads: a delete
needs its previous record. -/
def carriesPrev (event : Event) : Bool :=
  match event.Type_ with
  | .PUT => true
  | .DELETE => event.PrevKv.isSome

/-! ## Concrete scenarios -/

/-- A string without the path separator. -/
abbrev slashFree (s : String) : Prop := '/' ∉ s.data

/-- The discovery used in the concrete evaluations: default prefix and interval. -/
def gsv : EtcdDiscovery := { pfx := "gsv", keepAliveInterval := 30 }

/-- A tagged node of the service "orders" whose tag reads like a node kind. -/
def taggedNode : discovery.Node :=
  { Id := "a1", Name := "orders", Type_ := "http", Tag := "grpc", Extra := [] }

/-- An untagged node of the service "orders" of kind "grpcweb". -/
def grpcwebNode : discovery.Node :=
  { Id := "b7", Name := "orders", Type_ := "grpcweb", Tag := "", Extra := [] }

/-- A Store holding the records of `taggedNode` and `grpcwebNode`. -/
def mixedStore : Store :=
  { kvs := [{ Key := gsv.nodeKey taggedNode, Value := "t", Lease := 1 },
            { Key := gsv.nodeKey grpcwebNode, Value := "w", Lease := 2 }],
    leases := [(1, 30), (2, 30)], nextLease := 3, faults := [], calls := [] }

/-- A codec for concrete evaluations: a node is written as its `Id`, and any
non-empty value reads back as an untagged "grpc" node of service "orders". -/
def idCodec : Json :=
  { Marshal := fun node => .ok node.Id,
    Decode := fun v =>
      if v = "" then none
      else some { Id := v, Name := "orders", Type_ := "grpc", Tag := "", Extra := [] } }

/-- The node of the spec's scenario. -/
def a1 : discovery.Node :=
  { Id := "a1", Name := "orders", Type_ := "grpc", Tag := "", Extra := [] }

/-- A fresh process: empty Store that fails no call, no keepalive task. -/
def world₀ : World :=
  { store := { kvs := [], leases := [], nextLease := 7, faults := [], calls := [] },
    nodeCancel := [], cancelled := [], nextCtx := 0 }

/-- A world whose Store holds no lease: any renewal is rejected. The failure
script lets the renewal reach the Store and fails the Grant that follows. -/
def staleWorld : World :=
  { store := { kvs := [], leases := [], nextLease := 9, faults := [false, true], calls := [] },
    nodeCancel := [("a1", 0)], cancelled := [], nextCtx := 1 }

/-- The scenario node holding the id of a lease that has expired. -/
def a1Stale : discovery.Node :=
  { a1 with Extra := [(leaseIdKey, .LeaseID 7)] }

/-- The scenario node registered in a fresh process. -/
def registered : Option Error × discovery.Node × World :=
  gsv.Register idCodec a1 world₀

/-- Its keepalive task after one tick. -/
def keptAlive : Outcome × discovery.Node × World :=
  gsv.KeepAlive idCodec registered.2.1 registered.2.2 1

/-- `Deregister` called while the keepalive task waits for its next tick. -/
def deregistered : Option Error × World :=
  gsv.Deregister keptAlive.2.1 keptAlive.2.2

/-- The keepalive task (context 0) over the tick that follows `Deregister`. -/
def nextTick : Outcome × discovery.Node × World :=
  EtcdDiscovery.KeepAlive.loop gsv idCodec 0 1 keptAlive.2.1 deregistered.2

/-- A Store holding two records that decode around one that does not. -/
def scanWorld : World :=
  { world₀ with store :=
      { kvs := [{ Key := "/gsv/orders/grpc/a1", Value := "a1", Lease := 1 },
                { Key := "/gsv/orders/grpc/a2", Value := "", Lease := 2 },
                { Key := "/gsv/orders/grpc/a3", Value := "a3", Lease := 3 }],
        leases := [(1, 30), (2, 30), (3, 30)], nextLease := 4, faults := [], calls := [] } }

/-- A watch feed: a delete whose previous record the Store no longer has,
followed by a put of the scenario node. -/
def compactedFeed (_key : String) : List WatchResponse :=
  [{ Events := [{ Type_ := .DELETE,
                  Kv := { Key := "/gsv/orders/grpc/a0", Value := "", Lease := 0 },
                  PrevKv := none }] },
   { Events := [{ Type_ := .PUT,
                  Kv := { Key := "/gsv/orders/grpc/a1", Value := "a1", Lease := 7 },
                  PrevKv := none }] }]

/-- A watch feed: the put of the scenario node, an undecodable put, then the
delete of the scenario node with its previous record. -/
def liveFeed (_key : String) : List WatchResponse :=
  [{ Events := [{ Type_ := .PUT,
                  Kv := { Key := "/gsv/orders/grpc/a1", Value := "a1", Lease := 7 },
                  PrevKv := none },
                { Type_ := .PUT,
                  Kv := { Key := "/gsv/orders/grpc/a2", Value := "", Lease := 8 },
                  PrevKv := none }] },
   { Events := [{ Type_ := .DELETE,
                  Kv := { Key := "/gsv/orders/grpc/a1", Value := "", Lease := 0 },
                  PrevKv := some { Key := "/gsv/orders/grpc/a1", Value := "a1", Lease := 7 } }] }]

end etcdiscov

namespace confdiscov

open discovery

/-- `NodeInfo`, the key of the static table. -/
structure NodeInfo where
  Name : String
  Type_ : NodeType
  deriving DecidableEq, Repr

/-- `Discovery`: the static table; a slice is `none` when `nil`. -/
structure Discovery where
  data : List (NodeInfo × Option (List Node))

/-- The map read `d.data[key]`: the `nil` slice when the key is absent. -/
def Discovery.lookup (d : Discovery) (key : NodeInfo) : Option (List Node) :=
  match d.data.find? (fun kv => kv.1 == key) with
  | some kv => kv.2
  | none => none

/-- `d.ServiceNode(name, nodeType)`. -/
def Discovery.ServiceNode (d : Discovery) (name : String) (nodeType : NodeType) :
    Option (List Node) :=
  match d.lookup { Name := name, Type_ := nodeType } with
  | none => some []
  | some nodeList => some nodeList

end confdiscov

namespace etcdiscov

open discovery

/-! ## Strings as character lists -/

theorem hasPrefix_iff (s p : String) : hasPrefix s p = true ↔ p.data <+: s.data := by
  simp [hasPrefix]

theorem slash_data : ("/" : String).data = ['/'] := rfl

theorem seg_prefix_seg (a b x y : List Char) (ha : '/' ∉ a) (hb : '/' ∉ b) :
    a ++ '/' :: x <+: b ++ '/' :: y ↔ a = b ∧ x <+: y := by
  induction a generalizing b with
  | nil =>
    cases b with
    | nil => simp
    | cons c b =>
      have hc : ¬ ('/' = c) := fun h => hb (h ▸ List.mem_cons_self _ _)
      simp [hc]
  | cons c a ih =>
    cases b with
    | nil =>
      have hc : ¬ (c = '/') := fun h => ha (by simp [h])
      simp [hc]
    | cons d b =>
      have ha' : '/' ∉ a := fun h => ha (List.mem_cons_of_mem _ h)
      have hb' : '/' ∉ b := fun h => hb (List.mem_cons_of_mem _ h)
      simp only [List.cons_append, List.cons_prefix_cons, ih b ha' hb', List.cons.injEq]
      tauto

theorem seg_eq_seg (a b x y : List Char) (ha : '/' ∉ a) (hb : '/' ∉ b) :
    a ++ '/' :: x = b ++ '/' :: y ↔ a = b ∧ x = y := by
  constructor
  · intro h
    have h1 : a ++ '/' :: x <+: b ++ '/' :: y := h ▸ List.prefix_refl _
    have hab := ((seg_prefix_seg a b x y ha hb).1 h1).1
    subst hab
    exact ⟨rfl, by simpa using h⟩
  · rintro ⟨rfl, rfl⟩
    rfl

theorem prefix_seg (a b y : List Char) (ha : '/' ∉ a) :
    a <+: b ++ '/' :: y ↔ a <+: b := by
  constructor
  · intro h
    induction a generalizing b with
    | nil => exact List.nil_prefix
    | cons c a ih =>
      have hc : ¬ (c = '/') := fun h => ha (by simp [h])
      have ha' : '/' ∉ a := fun h => ha (List.mem_cons_of_mem _ h)
      cases b with
      | nil => simp [hc] at h
      | cons d b =>
        simp only [List.cons_append, List.cons_prefix_cons] at h ⊢
        exact ⟨h.1, ih b ha' h.2⟩
  · intro h
    exact h.trans (List.prefix_append _ _)

theorem nodeKey_eq (e : EtcdDiscovery) (n : discovery.Node) :
    e.nodeKey n = e.nodePath n.Name n.Type_ [n.Tag] ++ "/" ++ n.Id := by
  unfold EtcdDiscovery.nodeKey EtcdDiscovery.nodePath
  by_cases h : n.Tag = "" <;> simp [h, String.append_assoc]

/-- C1: for every node and every namespace prefix, `nodeKey(n)` is
`nodePath(n.Name, n.Type, n.Tag)` followed by "/" and `n.Id`, so that the path
is a proper string prefix of the key. -/
theorem nodeKey_extends_nodePath (e : EtcdDiscovery) (n : discovery.Node) :
    e.nodeKey n = e.nodePath n.Name n.Type_ [n.Tag] ++ "/" ++ n.Id ∧
      hasPrefix (e.nodeKey n) (e.nodePath n.Name n.Type_ [n.Tag]) = true ∧
      e.nodePath n.Name n.Type_ [n.Tag] ≠ e.nodeKey n := by
  refine ⟨nodeKey_eq e n, ?_, ?_⟩
  · rw [hasPrefix_iff, nodeKey_eq]
    simp [String.data_append, List.append_assoc]
  · intro h
    have hl := congrArg String.length h
    rw [nodeKey_eq] at hl
    have h1 : ("/" : String).length = 1 := rfl
    rw [String.length_append, String.length_append, h1] at hl
    omega

theorem nodePath_data (e : EtcdDiscovery) (name : String) (nodeType : NodeType)
    (tag : String) :
    (e.nodePath name nodeType [tag]).data =
      if tag = "" then
        ('/' :: e.pfx.data) ++ '/' :: (name.data ++ '/' :: nodeType.data)
      else
        ('/' :: e.pfx.data) ++ '/' :: (name.data ++ '/' :: (tag.data ++ '/' :: nodeType.data)) := by
  unfold EtcdDiscovery.nodePath
  by_cases h : tag = "" <;> simp [h, String.data_append, slash_data]

theorem nodeKey_data (e : EtcdDiscovery) (n : discovery.Node) :
    (e.nodeKey n).data =
      if n.Tag = "" then
        ('/' :: e.pfx.data) ++ '/' :: (n.Name.data ++ '/' :: (n.Type_.data ++ '/' :: n.Id.data))
      else
        ('/' :: e.pfx.data) ++ '/' ::
          (n.Name.data ++ '/' :: (n.Tag.data ++ '/' :: (n.Type_.data ++ '/' :: n.Id.data))) := by
  unfold EtcdDiscovery.nodeKey
  by_cases h : n.Tag = "" <;> simp [h, String.data_append, slash_data]

/-- C7, as stated, fails: with a name holding the separator, or with a type
holding it, two different (Name, Type, Tag) triples have the same path. -/
theorem nodePath_collision :
    ("a/b", "grpc", "") ≠ ("a", "grpc", "b") ∧
      gsv.nodePath "a/b" "grpc" [""] = gsv.nodePath "a" "grpc" ["b"] ∧
      ("a", "b/grpc", "") ≠ ("a", "grpc", "b") ∧
      gsv.nodePath "a" "b/grpc" [""] = gsv.nodePath "a" "grpc" ["b"] := by
  decide

theorem seg_eq_seg_right (x y a b : List Char) (ha : '/' ∉ a) (hb : '/' ∉ b) :
    x ++ '/' :: a = y ++ '/' :: b ↔ x = y ∧ a = b := by
  constructor
  · intro h
    have hr := congrArg List.reverse h
    simp only [List.reverse_append, List.reverse_cons, List.append_assoc,
      List.singleton_append] at hr
    have ha' : '/' ∉ a.reverse := by simpa using ha
    have hb' : '/' ∉ b.reverse := by simpa using hb
    have := (seg_eq_seg _ _ _ _ ha' hb').1 hr
    exact ⟨List.reverse_injective this.2, List.reverse_injective this.1⟩
  · rintro ⟨rfl, rfl⟩
    rfl

/-- C7, amended: under one namespace prefix, two (Name, Type, Tag) triples
whose Name and Type hold no "/" (Tag arbitrary, possibly empty) and that
differ in a component have different paths. -/
theorem nodePath_injective (e : EtcdDiscovery) (name₁ name₂ : String)
    (type₁ type₂ : NodeType) (tag₁ tag₂ : String)
    (hn₁ : slashFree name₁) (hn₂ : slashFree name₂)
    (ht₁ : slashFree type₁) (ht₂ : slashFree type₂)
    (hne : (name₁, type₁, tag₁) ≠ (name₂, type₂, tag₂)) :
    e.nodePath name₁ type₁ [tag₁] ≠ e.nodePath name₂ type₂ [tag₂] := by
  intro h
  apply hne
  have hd := congrArg String.data h
  rw [nodePath_data, nodePath_data] at hd
  by_cases h₁ : tag₁ = "" <;> by_cases h₂ : tag₂ = ""
  · simp only [h₁, h₂, if_true, List.append_cancel_left_eq, List.cons.injEq, true_and] at hd
    rw [seg_eq_seg _ _ _ _ hn₁ hn₂] at hd
    rw [h₁, h₂, String.ext hd.1, String.ext hd.2]
  · simp only [h₁, h₂, if_true, if_false, List.append_cancel_left_eq, List.cons.injEq,
      true_and] at hd
    rw [seg_eq_seg _ _ _ _ hn₁ hn₂] at hd
    exact absurd (show '/' ∈ type₁.data by rw [hd.2]; simp) ht₁
  · simp only [h₁, h₂, if_true, if_false, List.append_cancel_left_eq, List.cons.injEq,
      true_and] at hd
    rw [seg_eq_seg _ _ _ _ hn₁ hn₂] at hd
    exact absurd (show '/' ∈ type₂.data by rw [← hd.2]; simp) ht₂
  · simp only [h₁, h₂, if_false, List.append_cancel_left_eq, List.cons.injEq, true_and] at hd
    rw [seg_eq_seg _ _ _ _ hn₁ hn₂, seg_eq_seg_right _ _ _ _ ht₁ ht₂] at hd
    rw [String.ext hd.1, String.ext hd.2.1, String.ext hd.2.2]

theorem nodePath_injective_witness :
    gsv.nodePath "orders" "grpc" ["eu/west"] ≠ gsv.nodePath "orders" "grpc" ["canary"] :=
  nodePath_injective gsv "orders" "orders" "grpc" "grpc" "eu/west" "canary"
    (by decide) (by decide) (by decide) (by decide) (by decide)

/-- C8, as stated, fails: the untagged scan path of ("orders", "grpc") is a
string prefix of the key of a tagged node (tag "grpc", kind "http") and of the
key of a node of kind "grpcweb", both of other partitions, and the prefix scan
of the Store returns both records. -/
theorem scan_crosses_partitions :
    ("orders", "grpc", "") ≠ (taggedNode.Name, taggedNode.Type_, taggedNode.Tag) ∧
      hasPrefix (gsv.nodeKey taggedNode) (gsv.nodePath "orders" "grpc" [""]) = true ∧
      ("orders", "grpc", "") ≠ (grpcwebNode.Name, grpcwebNode.Type_, grpcwebNode.Tag) ∧
      hasPrefix (gsv.nodeKey grpcwebNode) (gsv.nodePath "orders" "grpc" [""]) = true ∧
      (mixedStore.Get (gsv.nodePath "orders" "grpc" [])).1 = .ok mixedStore.kvs := by
  decide

/-- C8, amended: with "/"-free name, type and tag on both sides, the scan path
`nodePath(name, type, tag)` is a string prefix of `nodeKey(n)` exactly when the
names are equal and the queried type is a string prefix of the segment that
follows in the key: `n.Type` between two untagged or two equally tagged
partitions, `n.Tag` for an untagged scan of a tagged node, `n.Id` for a scan
tagged with `n.Type` of an untagged node. -/
theorem nodePath_prefix_nodeKey_iff (e : EtcdDiscovery) (name : String)
    (nodeType : NodeType) (tag : String) (n : discovery.Node)
    (hn : slashFree name) (ht : slashFree nodeType) (hg : slashFree tag)
    (hN : slashFree n.Name) (hT : slashFree n.Type_) (hG : slashFree n.Tag) :
    hasPrefix (e.nodeKey n) (e.nodePath name nodeType [tag]) = true ↔
      name = n.Name ∧
        (if tag = "" then
          (if n.Tag = "" then hasPrefix n.Type_ nodeType = true
           else hasPrefix n.Tag nodeType = true)
         else
          (if n.Tag = "" then tag = n.Type_ ∧ hasPrefix n.Id nodeType = true
           else tag = n.Tag ∧ hasPrefix n.Type_ nodeType = true)) := by
  simp only [hasPrefix_iff]
  rw [nodePath_data, nodeKey_data]
  by_cases h₁ : tag = "" <;> by_cases h₂ : n.Tag = ""
  · simp only [h₁, h₂, if_true, List.prefix_append_right_inj, List.prefix_cons_inj]
    rw [seg_prefix_seg _ _ _ _ hn hN, prefix_seg _ _ _ ht, String.ext_iff]
  · simp only [h₁, h₂, if_true, if_false, List.prefix_append_right_inj, List.prefix_cons_inj]
    rw [seg_prefix_seg _ _ _ _ hn hN, prefix_seg _ _ _ ht, String.ext_iff]
  · simp only [h₁, h₂, if_true, if_false, List.prefix_append_right_inj, List.prefix_cons_inj]
    rw [seg_prefix_seg _ _ _ _ hn hN, seg_prefix_seg _ _ _ _ hg hT, String.ext_iff,
      String.ext_iff]
  · simp only [h₁, h₂, if_false, List.prefix_append_right_inj, List.prefix_cons_inj]
    rw [seg_prefix_seg _ _ _ _ hn hN, seg_prefix_seg _ _ _ _ hg hG, prefix_seg _ _ _ ht,
      String.ext_iff, String.ext_iff]

theorem nodePath_prefix_nodeKey_iff_witness :
    hasPrefix (gsv.nodeKey taggedNode) (gsv.nodePath "orders" "http" ["grpc"]) = true ↔
      "orders" = taggedNode.Name ∧
        (if "grpc" = "" then
          (if taggedNode.Tag = "" then hasPrefix taggedNode.Type_ "http" = true
           else hasPrefix taggedNode.Tag "http" = true)
         else
          (if taggedNode.Tag = "" then "grpc" = taggedNode.Type_ ∧ hasPrefix taggedNode.Id "http" = true
           else "grpc" = taggedNode.Tag ∧ hasPrefix taggedNode.Type_ "http" = true)) :=
  nodePath_prefix_nodeKey_iff gsv "orders" "http" "grpc" taggedNode
    (by decide) (by decide) (by decide) (by decide) (by decide) (by decide)

/-! ## Store calls that succeed -/

theorem Store.enter_calls (s : Store) (c : Call) :
    (s.enter c).2.calls = s.calls ++ [c] ∧ (s.enter c).2.kvs = s.kvs ∧
      (s.enter c).2.leases = s.leases ∧ (s.enter c).2.nextLease = s.nextLease := by
  unfold Store.enter
  cases s.faults <;> simp

theorem Store.Grant_ok (s s' : Store) (ttl id : Int)
    (h : s.Grant ttl = (.ok id, s')) :
    id = s.nextLease ∧ s'.leases = (id, ttl) :: s.leases ∧ s'.kvs = s.kvs ∧
      s'.calls = s.calls ++ [.Grant ttl] := by
  have hc := Store.enter_calls s (.Grant ttl)
  unfold Store.Grant at h
  revert h hc
  rcases s.enter (.Grant ttl) with ⟨f, t⟩
  cases f
  · intro h hc
    simp only [Prod.mk.injEq, Except.ok.injEq] at h
    obtain ⟨h1, h2⟩ := h
    subst h2
    simp at hc ⊢
    simp [← h1, hc]
  · intro h
    simp at h

theorem Store.Put_ok (s s' : Store) (key val : String) (lease : Int)
    (h : s.Put key val lease = (.ok (), s')) :
    s'.kvs = s.kvs.filter (fun kv => !(kv.Key == key))
        ++ [{ Key := key, Value := val, Lease := lease }] ∧
      s'.leases = s.leases ∧ s'.calls = s.calls ++ [.Put key val lease] := by
  have hc := Store.enter_calls s (.Put key val lease)
  unfold Store.Put at h
  revert h hc
  rcases s.enter (.Put key val lease) with ⟨f, t⟩
  cases f
  · intro h hc
    by_cases hl : t.hasLease lease = true
    · simp only [hl, if_true, Prod.mk.injEq, true_and] at h
      subst h
      simp at hc ⊢
      simp [hc]
    · simp [hl] at h
  · intro h
    simp at h

theorem nodeKey_extra (e : EtcdDiscovery) (node : discovery.Node) (x : SyncMap) :
    e.nodeKey { node with Extra := x } = e.nodeKey node := rfl

theorem SyncMap.Load_Store (m : SyncMap) (key : String) (v : Any) :
    (m.Store key v).Load key = some v := by
  simp [SyncMap.Load, SyncMap.Store]

/-- C2: when the lease Grant and the Put of `Register` succeed, `Register`
returns no error; the Store then holds, as the only record under
`nodeKey(node)`, the encoded node bound to the lease just granted, whose TTL is
the configured keep-alive interval (30 when the option is 0); the Store saw
exactly that Grant and that Put; and `node.Extra` maps the lease-id key to the
granted lease id. -/
theorem register_ok (clientErr : Option Error) (opt : Option_) (e : EtcdDiscovery)
    (j : Json) (node : discovery.Node) (w : World) (id : Int) (st₁ st₂ : Store)
    (he : NewEtcdDiscovery clientErr opt = .ok e)
    (hg : w.store.Grant e.keepAliveInterval = (.ok id, st₁))
    (hp : st₁.Put (e.nodeKey node)
            (e.encodeNode j { node with Extra := node.Extra.Store leaseIdKey (.LeaseID id) })
            id = (.ok (), st₂)) :
    e.Register j node w =
        (none, { node with Extra := node.Extra.Store leaseIdKey (.LeaseID id) },
          { w with store := st₂ }) ∧
      st₂.kvs.filter (fun kv => kv.Key == e.nodeKey node) =
        [{ Key := e.nodeKey node,
           Value := e.encodeNode j (e.Register j node w).2.1,
           Lease := id }] ∧
      st₂.leases.find? (fun l => l.1 == id) =
        some (id, if opt.KeepAliveInterval = 0 then 30 else opt.KeepAliveInterval) ∧
      st₂.calls = w.store.calls ++
        [.Grant e.keepAliveInterval,
         .Put (e.nodeKey node) (e.encodeNode j (e.Register j node w).2.1) id] ∧
      (e.Register j node w).2.1.Extra.Load leaseIdKey = some (.LeaseID id) := by
  have hreg : e.Register j node w =
      (none, { node with Extra := node.Extra.Store leaseIdKey (.LeaseID id) },
        { w with store := st₂ }) := by
    unfold EtcdDiscovery.Register
    simp only [hg, nodeKey_extra, hp]
  have hG := Store.Grant_ok _ _ _ _ hg
  have hP := Store.Put_ok _ _ _ _ _ hp
  have hint : e.keepAliveInterval =
      if opt.KeepAliveInterval = 0 then 30 else opt.KeepAliveInterval := by
    unfold NewEtcdDiscovery at he
    cases clientErr with
    | some err => simp at he
    | none =>
      simp only [Except.ok.injEq] at he
      subst he
      by_cases h0 : opt.KeepAliveInterval = 0 <;> simp [h0]
  refine ⟨hreg, ?_, ?_, ?_, ?_⟩
  · rw [hreg, hP.1]
    simp [List.filter_append, List.filter_filter]
  · rw [hP.2.1, hG.2.1, ← hint]
    simp
  · rw [hreg, hP.2.2, hG.2.2.2]
    simp
  · rw [hreg]
    exact SyncMap.Load_Store _ _ _

theorem register_ok_witness :
    gsv.Register idCodec a1 world₀ =
        (none, { a1 with Extra := a1.Extra.Store leaseIdKey (.LeaseID 7) },
          { world₀ with store :=
              { kvs := [{ Key := "/gsv/orders/grpc/a1", Value := "a1", Lease := 7 }],
                leases := [(7, 30)], nextLease := 8, faults := [],
                calls := [.Grant 30, .Put "/gsv/orders/grpc/a1" "a1" 7] } }) :=
  (register_ok none { Endpoint := [], Prefix := "", KeepAliveInterval := 0 } gsv idCodec a1
    world₀ 7
    { kvs := [], leases := [(7, 30)], nextLease := 8, faults := [], calls := [.Grant 30] } _
    (by decide) (by decide) (by decide)).1

/-! ## The keepalive loop -/

theorem Store.Grant_calls (s : Store) (ttl : Int) :
    (s.Grant ttl).2.calls = s.calls ++ [.Grant ttl] := by
  unfold Store.Grant Store.enter
  cases s.faults with
  | nil => rfl
  | cons f fs => cases f <;> rfl

theorem Store.Put_calls (s : Store) (key val : String) (lease : Int) :
    (s.Put key val lease).2.calls = s.calls ++ [.Put key val lease] := by
  have hc := (Store.enter_calls s (.Put key val lease)).1
  unfold Store.Put
  revert hc
  rcases s.enter (.Put key val lease) with ⟨f, t⟩
  cases f
  · intro hc
    by_cases hl : t.hasLease lease = true <;> simpa [hl] using hc
  · intro hc
    simpa using hc

theorem Register_calls (e : EtcdDiscovery) (j : Json) (node : discovery.Node) (w : World) :
    ∃ rest, (e.Register j node w).2.2.store.calls =
      w.store.calls ++ .Grant e.keepAliveInterval :: rest := by
  have hg := Store.Grant_calls w.store e.keepAliveInterval
  unfold EtcdDiscovery.Register
  revert hg
  rcases w.store.Grant e.keepAliveInterval with ⟨r, st⟩
  cases r with
  | error err =>
    intro hg
    exact ⟨[], by simpa using hg⟩
  | ok leaseID =>
    intro hg
    have hp := Store.Put_calls st
      (e.nodeKey { node with Extra := node.Extra.Store leaseIdKey (.LeaseID leaseID) })
      (e.encodeNode j { node with Extra := node.Extra.Store leaseIdKey (.LeaseID leaseID) })
      leaseID
    simp only at hg hp ⊢
    revert hp
    rcases st.Put
      (e.nodeKey { node with Extra := node.Extra.Store leaseIdKey (.LeaseID leaseID) })
      (e.encodeNode j { node with Extra := node.Extra.Store leaseIdKey (.LeaseID leaseID) })
      leaseID with ⟨r', st'⟩
    intro hp
    refine ⟨[.Put (e.nodeKey { node with Extra := node.Extra.Store leaseIdKey (.LeaseID leaseID) })
      (e.encodeNode j { node with Extra := node.Extra.Store leaseIdKey (.LeaseID leaseID) })
      leaseID], ?_⟩
    cases r' <;> simp at hp ⊢ <;> simp [hp, hg]

theorem KeepAlive_loop_never_nil (e : EtcdDiscovery) (j : Json) (ctx : Nat) (ticks : Nat)
    (node : discovery.Node) (w : World) :
    (EtcdDiscovery.KeepAlive.loop e j ctx ticks node w).1 ≠ .returned none := by
  induction ticks generalizing node w with
  | zero => simp [EtcdDiscovery.KeepAlive.loop]
  | succ n ih =>
    rw [EtcdDiscovery.KeepAlive.loop]
    rcases EtcdDiscovery.KeepAlive.tick e j ctx node w with ⟨step, node', w'⟩
    cases step with
    | next => exact ih node' w'
    | ret err => simp

/-- C3: on a tick where `node.Extra` holds a lease id and the renewal call
fails, the loop body runs `Register` for the same node on the state left by
the failed renewal (so a Grant reaches the Store) and does not return, whatever
`Register` answers: after that tick the loop is still running, holding the node
and state `Register` left, and it goes on with the next tick from there. -/
theorem keepAlive_tick_selfheal (e : EtcdDiscovery) (j : Json) (ctx : Nat)
    (node : discovery.Node) (w : World) (leaseId : Int) (err : Error) (st : Store)
    (ticks : Nat)
    (hid : node.Extra.Load leaseIdKey = some (.LeaseID leaseId))
    (hfail : w.store.KeepAliveOnce (w.cancelled.contains ctx) leaseId = (.error err, st)) :
    EtcdDiscovery.KeepAlive.tick e j ctx node w =
        (.next, (e.Register j node { w with store := st }).2.1,
          (e.Register j node { w with store := st }).2.2) ∧
      (∃ rest, (EtcdDiscovery.KeepAlive.tick e j ctx node w).2.2.store.calls =
        st.calls ++ .Grant e.keepAliveInterval :: rest) ∧
      EtcdDiscovery.KeepAlive.loop e j ctx (ticks + 1) node w =
        EtcdDiscovery.KeepAlive.loop e j ctx ticks
          (e.Register j node { w with store := st }).2.1
          (e.Register j node { w with store := st }).2.2 ∧
      EtcdDiscovery.KeepAlive.loop e j ctx 1 node w =
        (.running, (e.Register j node { w with store := st }).2.1,
          (e.Register j node { w with store := st }).2.2) ∧
      (∀ err', (EtcdDiscovery.KeepAlive.loop e j ctx 1 node w).1 ≠ .returned err') ∧
      (EtcdDiscovery.KeepAlive.loop e j ctx (ticks + 1) node w).1 ≠ .returned none := by
  have ht : EtcdDiscovery.KeepAlive.tick e j ctx node w =
      (.next, (e.Register j node { w with store := st }).2.1,
        (e.Register j node { w with store := st }).2.2) := by
    unfold EtcdDiscovery.KeepAlive.tick
    simp only [hid, hfail]
  have h1 : EtcdDiscovery.KeepAlive.loop e j ctx 1 node w =
      (.running, (e.Register j node { w with store := st }).2.1,
        (e.Register j node { w with store := st }).2.2) := by
    rw [EtcdDiscovery.KeepAlive.loop, ht]
    simp only [EtcdDiscovery.KeepAlive.loop]
  refine ⟨ht, ?_, ?_, h1, ?_, KeepAlive_loop_never_nil _ _ _ _ _ _⟩
  · rw [ht]
    exact Register_calls e j node { w with store := st }
  · rw [EtcdDiscovery.KeepAlive.loop, ht]
  · intro err'
    rw [h1]
    simp

theorem keepAlive_tick_selfheal_witness :
    EtcdDiscovery.KeepAlive.loop gsv idCodec 0 1 a1Stale staleWorld =
        (.running, { a1Stale with Extra := [(leaseIdKey, .LeaseID 7)] },
          { staleWorld with store :=
              { staleWorld.store with faults := [],
                                      calls := [.KeepAliveOnce 7, .Grant 30] } }) ∧
      EtcdDiscovery.KeepAlive.loop gsv idCodec 0 (2 + 1) a1Stale staleWorld =
        EtcdDiscovery.KeepAlive.loop gsv idCodec 0 2
          (gsv.Register idCodec a1Stale { staleWorld with store :=
            { staleWorld.store with faults := [true], calls := [.KeepAliveOnce 7] } }).2.1
          (gsv.Register idCodec a1Stale { staleWorld with store :=
            { staleWorld.store with faults := [true], calls := [.KeepAliveOnce 7] } }).2.2 :=
  ⟨(keepAlive_tick_selfheal gsv idCodec 0 a1Stale staleWorld 7 ErrLeaseNotFound
      { staleWorld.store with faults := [true], calls := [.KeepAliveOnce 7] } 2
      (by decide) (by decide)).2.2.2.1.trans (by decide),
   (keepAlive_tick_selfheal gsv idCodec 0 a1Stale staleWorld 7 ErrLeaseNotFound
      { staleWorld.store with faults := [true], calls := [.KeepAliveOnce 7] } 2
      (by decide) (by decide)).2.2.1⟩

/-- C9: for a node whose `Extra` has no lease-id entry, `KeepAlive` (its ticker
created, one tick delivered) returns the error "lease id not found" on the
first tick; the node, hence `Extra`, is unchanged and so is the Store, trace of
calls included: no renewal and no `Register` call was made. -/
theorem keepAlive_lease_id_not_found (e : EtcdDiscovery) (j : Json)
    (node : discovery.Node) (w : World) (ticks : Nat)
    (hperiod : 0 < e.tickerPeriod)
    (hid : node.Extra.Load leaseIdKey = none) :
    e.KeepAlive j node w (ticks + 1) =
        (.returned (some "lease id not found"), node,
          (EtcdDiscovery.KeepAlive.enter node w).2) ∧
      (e.KeepAlive j node w (ticks + 1)).2.1.Extra = node.Extra ∧
      (e.KeepAlive j node w (ticks + 1)).2.2.store = w.store := by
  have h : e.KeepAlive j node w (ticks + 1) =
      (.returned (some "lease id not found"), node,
        (EtcdDiscovery.KeepAlive.enter node w).2) := by
    unfold EtcdDiscovery.KeepAlive
    simp only [EtcdDiscovery.KeepAlive.enter, not_le.mpr hperiod, if_false,
      EtcdDiscovery.KeepAlive.loop, EtcdDiscovery.KeepAlive.tick, hid]
  refine ⟨h, ?_, ?_⟩
  · rw [h]
  · rw [h]
    rfl

theorem keepAlive_lease_id_not_found_witness :
    gsv.KeepAlive idCodec a1 world₀ (0 + 1) =
      (.returned (some "lease id not found"), a1,
        { world₀ with nodeCancel := [("a1", 0)], nextCtx := 1 }) :=
  (keepAlive_lease_id_not_found gsv idCodec a1 world₀ 0 (by decide) (by decide)).1

/-- C4, the code at the failing input: after `Register`, one keepalive tick and
a successful `Deregister` (context 0 cancelled, lease 7 revoked, no record
left), the keepalive loop is still running after the next tick, on which it
called Grant and Put and left the node's record in the Store under a fresh
lease; and it returns `nil` after no number of later ticks. -/
theorem keepAlive_reregisters_after_deregister :
    registered.1 = none ∧ keptAlive.1 = .running ∧
      deregistered.1 = none ∧ deregistered.2.cancelled = [0] ∧
      deregistered.2.store.kvs = [] ∧ deregistered.2.store.leases = [] ∧
      nextTick.1 = .running ∧
      nextTick.2.2.store.kvs =
        [{ Key := "/gsv/orders/grpc/a1", Value := "a1", Lease := 8 }] ∧
      nextTick.2.2.store.calls =
        [.Grant 30, .Put "/gsv/orders/grpc/a1" "a1" 7, .KeepAliveOnce 7, .Revoke 7,
         .Grant 30, .Put "/gsv/orders/grpc/a1" "a1" 8] ∧
      ∀ ticks, (EtcdDiscovery.KeepAlive.loop gsv idCodec 0 ticks keptAlive.2.1
        deregistered.2).1 ≠ .returned none := by
  refine ⟨by decide, by decide, by decide, by decide, by decide, by decide, by decide,
    by decide, by decide, ?_⟩
  intro ticks
  exact KeepAlive_loop_never_nil _ _ _ _ _ _

/-! ## Deregister -/

theorem Store.Revoke_ok (s s' : Store) (id : Int) (h : s.Revoke id = (.ok (), s')) :
    s'.hasLease id = false := by
  unfold Store.Revoke at h
  revert h
  rcases s.enter (.Revoke id) with ⟨f, t⟩
  cases f
  · intro h
    by_cases hl : t.hasLease id = true
    · simp only [hl, if_true, Prod.mk.injEq, true_and] at h
      subst h
      simp [Store.hasLease]
    · simp [hl] at h
  · intro h
    simp at h

theorem Store.Revoke_dead (s : Store) (id : Int) (h : s.hasLease id = false) :
    ((s.Revoke id).1 = .error ErrLeaseNotFound ∨ (s.Revoke id).1 = .error ErrUnavailable) ∧
      (s.Revoke id).2.kvs = s.kvs ∧ (s.Revoke id).2.leases = s.leases ∧
      (s.Revoke id).2.calls = s.calls ++ [.Revoke id] := by
  have hc := Store.enter_calls s (.Revoke id)
  have hl : (s.enter (.Revoke id)).2.hasLease id = false := by
    unfold Store.hasLease at h ⊢
    rw [hc.2.2.1]
    exact h
  unfold Store.Revoke
  revert hc hl
  rcases s.enter (.Revoke id) with ⟨f, t⟩
  cases f
  · intro hc hl
    simp only at hl hc
    simp [hl, hc]
  · intro hc hl
    simp only at hc
    simp [hc]

/-- C10, as stated, fails: for the registered scenario node the first
`Deregister` returns no error and the second one, made right after it, returns
the Store's rejection of the revoked lease. -/
theorem deregister_twice_errors :
    registered.1 = none ∧
      (gsv.Deregister registered.2.1 registered.2.2).1 = none ∧
      (gsv.Deregister registered.2.1 (gsv.Deregister registered.2.1 registered.2.2).2).1 =
        some ErrLeaseNotFound := by
  decide

/-- C10, amended: a node with no lease id in `Extra` is deregistered with no
error, the Store untouched (no Revoke call); and when a first `Deregister` of a
node holding lease id `id` returned no error, a second `Deregister` right after
it calls Revoke for `id` again and returns the Store's error (the rejection of
the revoked lease, or an injected failure), the records and leases of the Store
unchanged. -/
theorem deregister_again (e : EtcdDiscovery) (node : discovery.Node) (w : World) :
    (node.Extra.Load leaseIdKey = none →
      (e.Deregister node w).1 = none ∧ (e.Deregister node w).2.store = w.store) ∧
    (∀ id, node.Extra.Load leaseIdKey = some (.LeaseID id) →
      (e.Deregister node w).1 = none →
      ((e.Deregister node (e.Deregister node w).2).1 = some ErrLeaseNotFound ∨
        (e.Deregister node (e.Deregister node w).2).1 = some ErrUnavailable) ∧
      (e.Deregister node (e.Deregister node w).2).2.store.kvs =
        (e.Deregister node w).2.store.kvs ∧
      (e.Deregister node (e.Deregister node w).2).2.store.leases =
        (e.Deregister node w).2.store.leases ∧
      (e.Deregister node (e.Deregister node w).2).2.store.calls =
        (e.Deregister node w).2.store.calls ++ [.Revoke id]) := by
  constructor
  · intro hid
    unfold EtcdDiscovery.Deregister
    simp only [hid]
    cases w.loadCancel node.Id <;> simp
  · intro id hid h1
    have key : ∀ w' : World, (e.Deregister node w').1 = none →
        ∀ w'' : World, w''.store = (e.Deregister node w').2.store →
        ((e.Deregister node w'').1 = some ErrLeaseNotFound ∨
          (e.Deregister node w'').1 = some ErrUnavailable) ∧
        (e.Deregister node w'').2.store.kvs = w''.store.kvs ∧
        (e.Deregister node w'').2.store.leases = w''.store.leases ∧
        (e.Deregister node w'').2.store.calls = w''.store.calls ++ [.Revoke id] := by
      intro w' h' w'' hw
      have hdead : w''.store.hasLease id = false := by
        rw [hw]
        unfold EtcdDiscovery.Deregister at h' ⊢
        simp only [hid] at h' ⊢
        generalize hv : (match w'.loadCancel node.Id with
          | some c => ({ w' with cancelled := c :: w'.cancelled } : World)
          | none => w') = v at h' ⊢
        have hr := fun s' => Store.Revoke_ok v.store s' id
        revert h' hr
        rcases v.store.Revoke id with ⟨r, st⟩
        cases r with
        | error err => simp
        | ok u =>
          intro _ hr
          exact hr st rfl
      unfold EtcdDiscovery.Deregister
      simp only [hid]
      generalize hv : (match w''.loadCancel node.Id with
        | some c => ({ w'' with cancelled := c :: w''.cancelled } : World)
        | none => w'') = v
      have hvs : v.store = w''.store := by
        rw [← hv]
        cases w''.loadCancel node.Id <;> rfl
      have hd := Store.Revoke_dead v.store id (hvs ▸ hdead)
      rw [hvs] at hd
      revert hd
      rw [hvs]
      rcases w''.store.Revoke id with ⟨r, st⟩
      cases r with
      | error err =>
        intro hd
        simpa using hd
      | ok u =>
        intro hd
        simp at hd
    have := key w h1 (e.Deregister node w).2 rfl
    simpa using this

theorem deregister_again_witness :
    ((gsv.Deregister registered.2.1 (gsv.Deregister registered.2.1 registered.2.2).2).1 =
        some ErrLeaseNotFound ∨
      (gsv.Deregister registered.2.1 (gsv.Deregister registered.2.1 registered.2.2).2).1 =
        some ErrUnavailable) ∧
    (gsv.Deregister a1 world₀).1 = none :=
  ⟨((deregister_again gsv registered.2.1 registered.2.2).2 7 (by decide) (by decide)).1,
   ((deregister_again gsv a1 world₀).1 (by decide)).1⟩

/-! ## Node lookup -/

theorem Node_loop_eq (j : Json) (kvs : List KeyValue) (result : List discovery.Node) :
    EtcdDiscovery.Node.loop j kvs result =
      result ++ kvs.filterMap (fun kv => j.Decode kv.Value) := by
  induction kvs generalizing result with
  | nil => simp [EtcdDiscovery.Node.loop]
  | cons kv rest ih =>
    rw [EtcdDiscovery.Node.loop]
    cases h : j.Decode kv.Value with
    | none => simp [ih, List.filterMap_cons, h]
    | some node => simp [ih, List.filterMap_cons, h]

/-- C6: when the prefix scan succeeds, `Node` returns no error and a non-nil
slice holding exactly the nodes decoded from the records that decode, in the
order of the Store's answer, the others skipped; the slice is empty and
non-nil when no record was returned or none decodes. -/
theorem node_returns_decoded (e : EtcdDiscovery) (j : Json) (name : String)
    (nodeType : NodeType) (tag : List String) (w : World) (kvs : List KeyValue)
    (st : Store)
    (hget : w.store.Get (e.nodePath name nodeType tag) = (.ok kvs, st)) :
    e.Node j name nodeType tag w =
        ((some (kvs.filterMap (fun kv => j.Decode kv.Value)), none),
          { w with store := st }) ∧
      ((∀ kv ∈ kvs, j.Decode kv.Value = none) →
        (e.Node j name nodeType tag w).1 = (some [], none)) := by
  have h : e.Node j name nodeType tag w =
      ((some (kvs.filterMap (fun kv => j.Decode kv.Value)), none),
        { w with store := st }) := by
    unfold EtcdDiscovery.Node
    simp only [hget, Node_loop_eq, List.nil_append]
  refine ⟨h, ?_⟩
  intro hall
  rw [h]
  have : kvs.filterMap (fun kv => j.Decode kv.Value) = [] := by
    rw [List.filterMap_eq_nil_iff]
    exact hall
  simp [this]

theorem node_returns_decoded_witness :
    gsv.Node idCodec "orders" "grpc" [] scanWorld =
      ((some [{ a1 with Id := "a1" }, { a1 with Id := "a3" }], none),
        { scanWorld with store :=
            { scanWorld.store with calls := [.Get "/gsv/orders/grpc"] } }) :=
  (node_returns_decoded gsv idCodec "orders" "grpc" [] scanWorld scanWorld.store.kvs
    { scanWorld.store with calls := [.Get "/gsv/orders/grpc"] } (by decide)).1

/-! ## Watch -/

theorem takeWhile_append_of_not_all {α : Type} (p : α → Bool) (a b : List α)
    (h : a.all p = false) : (a ++ b).takeWhile p = a.takeWhile p := by
  induction a with
  | nil => simp at h
  | cons x a ih =>
    cases hx : p x with
    | false => simp [List.takeWhile_cons, hx]
    | true =>
      have ha : a.all p = false := by simpa [List.all_cons, hx] using h
      simp [List.takeWhile_cons, hx, ih ha]

theorem takeWhile_append_of_all {α : Type} (p : α → Bool) (a b : List α)
    (h : a.all p = true) : (a ++ b).takeWhile p = a ++ b.takeWhile p := by
  apply List.takeWhile_append_of_pos
  simpa using h

theorem Watch_events_eq (j : Json) (events : List Event) (out : List NodeEvent) :
    EtcdDiscovery.Watch.events j events out =
      (out ++ (events.takeWhile carriesPrev).filterMap (translate j),
        !(events.all carriesPrev)) := by
  induction events generalizing out with
  | nil => simp [EtcdDiscovery.Watch.events]
  | cons event rest ih =>
    rw [EtcdDiscovery.Watch.events]
    cases ht : event.Type_ with
    | PUT =>
      have hc : carriesPrev event = true := by simp [carriesPrev, ht]
      cases hd : j.Decode event.Kv.Value with
      | none =>
        simp [ih, List.takeWhile_cons, hc, List.filterMap_cons, translate, ht, hd]
      | some node =>
        simp [ih, List.takeWhile_cons, hc, List.filterMap_cons, translate, ht, hd]
    | DELETE =>
      cases hp : event.PrevKv with
      | none =>
        have hc : carriesPrev event = false := by simp [carriesPrev, ht, hp]
        simp [List.takeWhile_cons, hc]
      | some prev =>
        have hc : carriesPrev event = true := by simp [carriesPrev, ht, hp]
        cases hd : j.Decode prev.Value with
        | none =>
          simp [ih, List.takeWhile_cons, hc, List.filterMap_cons, translate, ht, hp, hd]
        | some node =>
          simp [ih, List.takeWhile_cons, hc, List.filterMap_cons, translate, ht, hp, hd]

theorem Watch_dispatch_eq (j : Json) (resps : List WatchResponse) (out : List NodeEvent) :
    EtcdDiscovery.Watch.dispatch j resps out =
      out ++ ((resps.flatMap (fun r => r.Events)).takeWhile carriesPrev).filterMap
        (translate j) := by
  induction resps generalizing out with
  | nil => simp [EtcdDiscovery.Watch.dispatch]
  | cons r rest ih =>
    rw [EtcdDiscovery.Watch.dispatch, Watch_events_eq, List.flatMap_cons]
    cases hall : r.Events.all carriesPrev with
    | false =>
      simp only [Bool.not_false]
      rw [takeWhile_append_of_not_all _ _ _ hall]
    | true =>
      simp only [Bool.not_true]
      have hself : r.Events.takeWhile carriesPrev = r.Events :=
        List.takeWhile_eq_self_iff.mpr (by simpa using hall)
      rw [ih, takeWhile_append_of_all _ _ _ hall, List.filterMap_append, List.append_assoc,
        hself]

/-- C5, as stated, fails: after a delete notification without previous record
the put that follows, whose value decodes, yields no event. -/
theorem watch_stops_at_missing_prev :
    (gsv.Watch idCodec "orders" "grpc" [] compactedFeed).1 = [] ∧
      ((compactedFeed (gsv.nodePath "orders" "grpc" [])).flatMap (fun r => r.Events)).filterMap
          (translate idCodec) =
        [{ Event := .NodeEventAdd, Node := [a1] }] := by
  decide

theorem Watch_eq_takeWhile (e : EtcdDiscovery) (j : Json) (name : String)
    (nodeType : NodeType) (tag : List String) (watcher : String → List WatchResponse) :
    (e.Watch j name nodeType tag watcher).1 =
      (((watcher (e.nodePath name nodeType tag)).flatMap
        (fun r => r.Events)).takeWhile carriesPrev).filterMap (translate j) := by
  unfold EtcdDiscovery.Watch
  simp [Watch_dispatch_eq]

/-- C5, amended: for every sequence of change notifications in which each
delete carries its previous record, the events sent by the `Watch` are exactly
the in-order translation of the sequence: one `Add` with the node decoded from
the new value per put that decodes, one `Remove` with the node decoded from
the previous value per delete that decodes, nothing for a change that does not
decode; and `Watch` returns no error. -/
theorem watch_translates_in_order (e : EtcdDiscovery) (j : Json) (name : String)
    (nodeType : NodeType) (tag : List String) (watcher : String → List WatchResponse)
    (hprev : ∀ event ∈ (watcher (e.nodePath name nodeType tag)).flatMap (fun r => r.Events),
      carriesPrev event = true) :
    (e.Watch j name nodeType tag watcher).1 =
        ((watcher (e.nodePath name nodeType tag)).flatMap
          (fun r => r.Events)).filterMap (translate j) ∧
      (e.Watch j name nodeType tag watcher).2 = none := by
  refine ⟨?_, rfl⟩
  rw [Watch_eq_takeWhile, List.takeWhile_eq_self_iff.mpr hprev]

theorem watch_translates_in_order_witness :
    (gsv.Watch idCodec "orders" "grpc" [] liveFeed).1 =
      [{ Event := .NodeEventAdd, Node := [a1] }, { Event := .NodeEventRemove, Node := [a1] }] :=
  (watch_translates_in_order gsv idCodec "orders" "grpc" [] liveFeed (by decide)).1.trans
    (by decide)

end etcdiscov

namespace confdiscov

open discovery

theorem ServiceNode_not_nil (d : Discovery) (name : String) (nodeType : NodeType) :
    d.ServiceNode name nodeType ≠ none := by
  unfold Discovery.ServiceNode
  cases d.lookup { Name := name, Type_ := nodeType } <;> simp

end confdiscov
